import Mathlib

/-!
A verification development for the Commerce-Video processing pipeline
(frame selection, person gating, detection fusion, product resolution and
timestamp-indexed result lookup).

Machine floating-point values are modelled as exact rationals (`ℚ`),
Python exceptions as `Except String`, and the external inference /
similarity-search capabilities as explicit function parameters.  Python
container iteration is modelled with structural recursion over lists, and
Python `dict` as an insertion-ordered association list with unique keys.
-/

namespace CommerceVideo

/-- Truncation toward zero, the semantics of Python `int()` applied to a
non-integral number. -/
def pyInt (q : ℚ) : ℤ :=
  if 0 ≤ q then ⌊q⌋ else ⌈q⌉

/-- Python 3 `round` on a number: round half to even. -/
def pyRound (q : ℚ) : ℤ :=
  let f := ⌊q⌋
  let r := q - f
  if r < 1/2 then f
  else if 1/2 < r then f + 1
  else if f % 2 = 0 then f else f + 1

/-- A bounding box `(x1, y1, x2, y2)` in pixel coordinates, float-valued. -/
structure Box where
  x1 : ℚ
  y1 : ℚ
  x2 : ℚ
  y2 : ℚ
deriving DecidableEq, Repr

/-- A bounding box with integer pixel coordinates (person boxes and crop
regions are built from `int()`-converted coordinates). -/
structure IntBox where
  x1 : ℤ
  y1 : ℤ
  x2 : ℤ
  y2 : ℤ
deriving DecidableEq, Repr

/-- Translate a box by an integer pixel offset, as done when mapping
detection coordinates from a person crop back to the full frame. -/
def Box.translate (b : Box) (dx dy : ℤ) : Box :=
  ⟨b.x1 + dx, b.y1 + dy, b.x2 + dx, b.y2 + dy⟩

/-- The detection category discriminant. -/
inductive Category where
  | clothing
  | jewelry
deriving DecidableEq, Repr

/-- One detection record produced by `_detect_objects_in_frame`. -/
structure Detection where
  label : String
  confidence : ℚ
  box : Box
  category : Category
deriving DecidableEq, Repr

/-- A product record produced by `_find_similar_products`.  The
`direct_url` field of the source (a dummy link containing a freshly
generated UUID) is nondeterministic dummy data and is not modelled. -/
structure Product where
  object_type : String
  category : Category
  image_url : String
  title : String
  stock : String
  confidence : ℚ
deriving DecidableEq, Repr

/-! ## Frame quality assessment (`frame_quality_assessor.py`) -/

/-- `FrameQualityConfig` from `config.py`. -/
structure FrameQualityConfig where
  blur_threshold : ℚ
  min_brightness : ℚ
  max_brightness : ℚ
  enable_quality_check : Bool
  fallback_search_range : ℚ
deriving Repr

/-- The default `FRAME_QUALITY_CONFIG` instance from `config.py`. -/
def FRAME_QUALITY_CONFIG : FrameQualityConfig :=
  { blur_threshold := 100
    min_brightness := 40
    max_brightness := 220
    enable_quality_check := true
    fallback_search_range := 1 }

/-- The three per-frame metrics computed by the assessor (Laplacian
variance, mean gray intensity, gray standard deviation).  The pixel-level
computations are external; the metrics are the interface. -/
structure FrameMetrics where
  sharpness : ℚ
  brightness : ℚ
  contrast : ℚ
deriving Repr

/-- `FrameQualityAssessor._calculate_normalized_score`. -/
def calculateNormalizedScore (cfg : FrameQualityConfig) (m : FrameMetrics) : ℚ :=
  let sharpnessNorm := min (m.sharpness / 1000) 1
  let optimalBrightness := (cfg.min_brightness + cfg.max_brightness) / 2
  let brightnessRange := cfg.max_brightness - cfg.min_brightness
  let brightnessDeviation := |m.brightness - optimalBrightness|
  let brightnessNorm := max 0 (1 - brightnessDeviation / (brightnessRange / 2))
  let contrastNorm := min (m.contrast / 80) 1
  (0.5 : ℚ) * sharpnessNorm + (0.3 : ℚ) * brightnessNorm + (0.2 : ℚ) * contrastNorm

/-- `FrameQualityAssessor.assess_frame_quality`, returning
`(is_good_quality, quality_score)` for the metrics of a frame.  When the
quality check is disabled it returns `(true, 1.0)` without looking at the
frame. -/
def assessFrameQuality (cfg : FrameQualityConfig) (m : FrameMetrics) : Bool × ℚ :=
  if !cfg.enable_quality_check then (true, 1)
  else
    let isSharp := decide (cfg.blur_threshold ≤ m.sharpness)
    let goodBrightness :=
      decide (cfg.min_brightness ≤ m.brightness) && decide (m.brightness ≤ cfg.max_brightness)
    (isSharp && goodBrightness, calculateNormalizedScore cfg m)

/-! ## Result lookup (`VideoProcessorManager.get_results`) -/

/-- The core of `get_results` once the job is completed and its results
file has been loaded: `allResults` is the stored timestamp-to-products
mapping (an insertion-ordered association list, as a Python dict), `time`
the queried timestamp and `interval` the configured sampling interval.
Rounds the query to the nearest multiple of the interval, picks the stored
timestamp closest to the rounded value (Python `min`: first minimizer in
iteration order), and returns its products unless the closest timestamp is
farther than twice the interval from the rounded value. -/
def getResults (interval : ℚ) (allResults : List (ℚ × List Product)) (time : ℚ) :
    List Product :=
  match allResults with
  | [] => []
  | first :: rest =>
    let roundedTime : ℚ := (pyRound (time / interval) : ℚ) * interval
    let closestTime := closestTo roundedTime first.1 (rest.map Prod.fst)
    if interval * 2 < |closestTime - roundedTime| then []
    else
      match (first :: rest).find? (fun kv => kv.1 = closestTime) with
      | some kv => kv.2
      | none => []
where
  /-- Python `min(timestamps, key := fun t => abs (t - target))`: the first
  element attaining the minimum distance to the target. -/
  closestTo (target : ℚ) (t : ℚ) : List ℚ → ℚ
  | [] => t
  | u :: rest =>
    let c := closestTo target u rest
    if |c - target| < |t - target| then c else t

/-! ## Frame selection (`VideoProcessorManager._select_best_frame_in_range`)

A video frame is an abstract value of a type `F`.  Reading frame number
`n` from the capture is a function `read : ℤ → Option F` (`None` models a
failed `cap.read()`), and quality assessment is `assess : F → Bool × ℚ`,
the `(is_good, quality_score)` pair of `assess_frame_quality`. -/

/-- The probe offsets `0, +1, -1, +2, -2, …, +r, -r` built by the loop
`offsets = [0]; for i in range(1, r + 1): offsets.extend([i, -i])`. -/
def probeOffsets (r : ℕ) : List ℤ :=
  0 :: offsetsFrom r
where
  offsetsFrom : ℕ → List ℤ
  | 0 => []
  | n + 1 => offsetsFrom n ++ [(n + 1 : ℤ), -(n + 1 : ℤ)]

/-- The `best_quality` tracked by the probe loop: `-1.0` before any frame
was kept, the kept frame's score afterwards. -/
def bestQualityOf {F : Type} : Option (F × ℤ × ℚ) → ℚ
  | none => -1
  | some b => b.2.2

/-- The probe loop of `_select_best_frame_in_range`: walks the offset
list, skips frame numbers outside `[startF, endF]` and unreadable frames,
replaces the best candidate whenever a probe's score strictly exceeds the
best score so far (initially `-1.0`), and stops as soon as a replacing
probe passes the quality check. -/
def selectLoop {F : Type} (read : ℤ → Option F) (assess : F → Bool × ℚ)
    (center startF endF : ℤ) :
    List ℤ → Option (F × ℤ × ℚ) → Option (F × ℤ × ℚ)
  | [], best => best
  | off :: rest, best =>
    if center + off < startF ∨ endF < center + off then
      selectLoop read assess center startF endF rest best
    else
      match read (center + off) with
      | none => selectLoop read assess center startF endF rest best
      | some f =>
        if bestQualityOf best < (assess f).2 then
          if (assess f).1 then some (f, center + off, (assess f).2)
          else selectLoop read assess center startF endF rest
            (some (f, center + off, (assess f).2))
        else selectLoop read assess center startF endF rest best

/-- `_select_best_frame_in_range`: search radius in frames is
`int(fps * search_range_seconds)`, the window is
`[max 0 (center - r), center + r]`, and probing follows `probeOffsets`
with the early exit of `selectLoop`.  Returns
`(frame, frame_number, quality_score)` of the selected frame, or `none`
when no probed frame was readable. -/
def selectBestFrameInRange {F : Type} (read : ℤ → Option F) (assess : F → Bool × ℚ)
    (centerFrameNum : ℤ) (fps : ℚ) (searchRangeSeconds : ℚ) : Option (F × ℤ × ℚ) :=
  let searchRangeFrames : ℕ := (pyInt (fps * searchRangeSeconds)).toNat
  let startFrame := max 0 (centerFrameNum - searchRangeFrames)
  let endFrame := centerFrameNum + searchRangeFrames
  selectLoop read assess centerFrameNum startFrame endFrame
    (probeOffsets searchRangeFrames) none

/-! ## Images and object detectors -/

/-- An abstract image: either a full frame of known size, or a crop of
another image by an integer region (PIL `Image.crop`). -/
inductive Image where
  | frame (width height : ℤ)
  | cropTo (parent : Image) (region : IntBox)

/-- Image width (`image.size[0]`); a crop's width is `x2 - x1`. -/
def Image.width : Image → ℤ
  | .frame w _ => w
  | .cropTo _ r => r.x2 - r.x1

/-- Image height (`image.size[1]`); a crop's height is `y2 - y1`. -/
def Image.height : Image → ℤ
  | .frame _ h => h
  | .cropTo _ r => r.y2 - r.y1

/-- A raw detector result: the parallel arrays of boxes, labels and
scores returned by a detector's `detect_objects`.  The label type is a
parameter because the clothing model reports integer class ids while the
jewelry model reports class-name strings. -/
structure RawDetections (L : Type) where
  boxes : List Box
  labels : List L
  scores : List ℚ

/-- The empty raw result (what a failing jewelry call contributes). -/
def RawDetections.empty (L : Type) : RawDetections L := ⟨[], [], []⟩

/-- The clothing detector: an inference capability that may raise, its
configured confidence threshold, and the `id2label` mapping behind
`get_label_name`. -/
structure ClothingDetector (L : Type) where
  infer : Image → Except String (RawDetections L)
  confidence_threshold : ℚ
  label_name : L → String

/-- Modelled from the spec: the file `object_detectors/clothing_detector.py`
is not part of the sources (only its import in `object_detectors/__init__.py`
and its callers are), so its `detect_objects` is modelled after the spec's
error-handling rule "Detector failure for either category must not abort
the other; a failing detector contributes zero detections and the fusion
proceeds with whatever succeeded": an inference failure yields the empty
result instead of propagating. -/
def ClothingDetector.detect_objects {L : Type} (d : ClothingDetector L) (image : Image) :
    RawDetections L :=
  match d.infer image with
  | .ok r => r
  | .error _ => RawDetections.empty L

/-- One raw prediction of the Roboflow jewelry model: a center-based box
with a class name and a confidence. -/
structure RoboflowPrediction where
  x : ℚ
  y : ℚ
  width : ℚ
  height : ℚ
  className : String
  confidence : ℚ

/-- The jewelry detector: the Roboflow inference capability (which may
raise) and the configured confidence threshold. -/
structure JewelryDetector where
  infer : Image → Except String (List RoboflowPrediction)
  confidence_threshold : ℚ

/-- `JewelryDetector.detect_objects`: converts each center-based
prediction to a corner-based `[x1, y1, x2, y2]` box with its class name
and confidence; any exception during inference is caught and the empty
result is returned. -/
def JewelryDetector.detect_objects (d : JewelryDetector) (image : Image) :
    RawDetections String :=
  match d.infer image with
  | .error _ => RawDetections.empty String
  | .ok preds =>
    { boxes := preds.map (fun p =>
        ⟨p.x - p.width / 2, p.y - p.height / 2, p.x + p.width / 2, p.y + p.height / 2⟩)
      labels := preds.map (fun p => p.className)
      scores := preds.map (fun p => p.confidence) }

/-- `JewelryDetector.get_label_name`: jewelry labels are already strings. -/
def JewelryDetector.get_label_name (label : String) : String := label

/-! ## Detection fusion (`VideoProcessorManager._detect_objects_in_frame`) -/

/-- The person crop region: the person box expanded by the fixed 5%
padding (`pad = int(side * 0.05)` per axis) and clamped to the frame
bounds. -/
def paddedPersonBox (imageWidth imageHeight : ℤ) (pb : IntBox) : IntBox :=
  let width := pb.x2 - pb.x1
  let height := pb.y2 - pb.y1
  let padX := pyInt ((width : ℚ) * (0.05 : ℚ))
  let padY := pyInt ((height : ℚ) * (0.05 : ℚ))
  { x1 := max 0 (pb.x1 - padX)
    y1 := max 0 (pb.y1 - padY)
    x2 := min imageWidth (pb.x2 + padX)
    y2 := min imageHeight (pb.y2 + padY) }

/-- The image both detectors run on, with the crop's top-left offset:
the 5%-padded clamped person crop when a person box was supplied, the
full image with offset `(0, 0)` otherwise. -/
def detectionTarget (image : Image) (personBox : Option IntBox) : Image × ℤ × ℤ :=
  match personBox with
  | some pb =>
    let c := paddedPersonBox image.width image.height pb
    (Image.cropTo image c, c.x1, c.y1)
  | none => (image, 0, 0)

/-- One detector's contribution to the fused detection list: iterate the
zipped score/label/box arrays, keep entries whose confidence is at or
above the detector's threshold, translate the kept box by the crop offset
when a person box was supplied, and tag with the source category. -/
def keptDetections {L : Type} (threshold : ℚ) (name : L → String) (cat : Category)
    (raw : RawDetections L) (offset : Option (ℤ × ℤ)) : List Detection :=
  (raw.scores.zip (raw.labels.zip raw.boxes)).foldr
    (fun slb acc =>
      if threshold ≤ slb.1 then
        { label := name slb.2.1
          confidence := slb.1
          box := match offset with
                 | some od => slb.2.2.translate od.1 od.2
                 | none => slb.2.2
          category := cat } :: acc
      else acc) []

/-- `_detect_objects_in_frame`: run both detectors over the (possibly
person-cropped) image and concatenate the clothing contributions followed
by the jewelry contributions. -/
def detectObjectsInFrame {L : Type} (detector : ClothingDetector L)
    (jewelryDetector : JewelryDetector) (image : Image)
    (personBox : Option IntBox) : List Detection :=
  let target := detectionTarget image personBox
  let offset : Option (ℤ × ℤ) := personBox.map (fun _ => (target.2.1, target.2.2))
  keptDetections detector.confidence_threshold detector.label_name Category.clothing
      (detector.detect_objects target.1) offset
    ++ keptDetections jewelryDetector.confidence_threshold JewelryDetector.get_label_name
      Category.jewelry (jewelryDetector.detect_objects target.1) offset

/-! ## Person gate (`object_detectors/person_detector.py`) -/

/-- `PersonDetectionConfig` fields used by `detect_persons`. -/
structure PersonDetectionConfig where
  enable_person_detection : Bool
  confidence_threshold : ℚ
  min_person_area : ℚ
deriving Repr

/-- The default `PERSON_DETECTION_CONFIG` instance from `config.py`. -/
def PERSON_DETECTION_CONFIG : PersonDetectionConfig :=
  { enable_person_detection := true
    confidence_threshold := 0.5
    min_person_area := 0.05 }

/-- `PersonDetector.detect_persons`, returning
`(has_person, person_boxes, person_confidences)`.  The DETR inference and
its post-processing are the capability `inference`, producing the
thresholded `(score, label, box)` triples or raising; label `1` is the
COCO person class.  Person boxes are `int()`-converted, filtered by the
minimum area fraction of the frame.  When person detection is disabled by
configuration the result is `(true, [], [])` without running inference,
and any inference exception also yields `(true, [], [])` (fails open). -/
def detectPersons (cfg : PersonDetectionConfig) (image : Image)
    (inference : Image → Except String (List (ℚ × ℤ × Box))) :
    Bool × List IntBox × List ℚ :=
  if !cfg.enable_person_detection then (true, [], [])
  else
    match inference image with
    | .error _ => (true, [], [])
    | .ok results =>
      let imageArea := image.width * image.height
      let filtered := results.foldl
        (fun (acc : List IntBox × List ℚ) slb =>
          if slb.2.1 = 1 then
            let b : IntBox :=
              ⟨pyInt slb.2.2.x1, pyInt slb.2.2.y1, pyInt slb.2.2.x2, pyInt slb.2.2.y2⟩
            let personArea := (b.x2 - b.x1) * (b.y2 - b.y1)
            if cfg.min_person_area ≤ (personArea : ℚ) / (imageArea : ℚ) then
              (acc.1 ++ [b], acc.2 ++ [slb.1])
            else acc
          else acc)
        ([], [])
      (!filtered.1.isEmpty, filtered.1, filtered.2)

/-- `PersonDetector.is_person_present`: the first component of
`detect_persons`. -/
def isPersonPresent (cfg : PersonDetectionConfig) (image : Image)
    (inference : Image → Except String (List (ℚ × ℤ × Box))) : Bool :=
  (detectPersons cfg image inference).1

/-! ## Product resolution (`VideoProcessorManager._find_similar_products`) -/

/-- Python `str.title` restricted to space-separated words: capitalize
each word (the only use is on detection labels). -/
def strTitle (s : String) : String :=
  String.intercalate " " ((s.splitOn " ").map String.capitalize)

/-- The product record built for a detection whose similarity query
matched `imagePath` (the `direct_url` dummy field is not modelled). -/
def mkProduct (det : Detection) (imagePath : String) : Product :=
  { object_type := det.label
    category := det.category
    image_url := imagePath
    title := strTitle det.label
    stock := "In Stock"
    confidence := det.confidence }

/-- The dict update of `_find_similar_products`: if the matched image is
already a key, replace its stored product only when the new detection's
confidence is strictly greater; otherwise append the new unique product.
Models Python dict assignment on an insertion-ordered association list. -/
def updateBest : List (String × Product) → String → Product → List (String × Product)
  | [], key, p => [(key, p)]
  | kv :: rest, key, p =>
    if kv.1 = key then
      if kv.2.confidence < p.confidence then (kv.1, p) :: rest else kv :: rest
    else kv :: updateBest rest key p

/-- Stable descending insertion by confidence. -/
def insertByConfidence (p : Product) : List Product → List Product
  | [] => [p]
  | q :: rest =>
    if q.confidence < p.confidence then p :: q :: rest
    else q :: insertByConfidence p rest

/-- `list.sort(key := fun x => x.confidence, reverse := true)`: a stable
sort into descending confidence order. -/
def sortByConfidence : List Product → List Product
  | [] => []
  | p :: rest => insertByConfidence p (sortByConfidence rest)

/-- The per-detection resolution loop of `_find_similar_products`.
`resolve i det` bundles the crop / crop-save / category-routed
similarity-search pipeline for the detection at enumeration index `i`:
it returns the matched image list, or raises (any exception — including
the unknown-category skip, modelled as an error — drops the detection and
continues).  An empty match list also contributes nothing. -/
def resolveLoop (resolve : ℕ → Detection → Except String (List String)) :
    ℕ → List Detection → List (String × Product) → List (String × Product)
  | _, [], acc => acc
  | i, det :: rest, acc =>
    match resolve i det with
    | .error _ => resolveLoop resolve (i + 1) rest acc
    | .ok [] => resolveLoop resolve (i + 1) rest acc
    | .ok (imagePath :: _) =>
      resolveLoop resolve (i + 1) rest (updateBest acc imagePath (mkProduct det imagePath))

/-- `_find_similar_products`: deduplicate by matched image identity with
the strictly-greater-confidence merge rule, then sort the dict values by
descending confidence. -/
def findSimilarProducts (resolve : ℕ → Detection → Except String (List String))
    (detections : List Detection) : List Product :=
  sortByConfidence ((resolveLoop resolve 0 detections []).map Prod.snd)

/-! ## Job processing (`VideoProcessorManager.process_video`) -/

/-- `VideoInfo` from `models.py` (the fields the pipeline touches). -/
structure VideoInfo where
  id : String
  filename : String
  status : String
  file_path : Option String
  results_dir : Option String
  error_message : Option String
deriving DecidableEq, Repr

/-- Update the registry entry for one video id. -/
def updateVideo (videos : List (String × VideoInfo)) (videoId : String)
    (f : VideoInfo → VideoInfo) : List (String × VideoInfo) :=
  videos.map (fun kv => if kv.1 = videoId then (kv.1, f kv.2) else kv)

/-- `process_video`, as a function of the registry and of the outcome of
`_extract_and_process_frames` (which raises when the video source cannot
be opened, and through which any extraction exception propagates).
Returns the final registry and the results mapping written by
`_save_results` (`none` when no results file is written).  On success the
job is marked completed and the accumulated map is written; on any
exception the job is marked failed with the captured message and nothing
is written. -/
def processVideo (videos : List (String × VideoInfo)) (videoId : String)
    (extractOutcome : Except String (List (ℚ × List Product))) :
    List (String × VideoInfo) × Option (List (ℚ × List Product)) :=
  match videos.lookup videoId with
  | none => (videos, none)
  | some _ =>
    match extractOutcome with
    | .error e =>
      (updateVideo videos videoId
        (fun v => { v with status := "failed", error_message := some e }), none)
    | .ok framesData =>
      (updateVideo videos videoId (fun v => { v with status := "completed" }),
        some framesData)

/-! ## Frame extraction loop (`VideoProcessorManager._extract_and_process_frames`) -/

/-- `frames_data[timestamp] = products`: Python dict assignment on the
accumulated results map. -/
def storeResult (framesData : List (ℚ × List Product)) (timestamp : ℚ)
    (products : List Product) : List (ℚ × List Product) :=
  if framesData.any (fun kv => kv.1 = timestamp) then
    framesData.map (fun kv => if kv.1 = timestamp then (timestamp, products) else kv)
  else framesData ++ [(timestamp, products)]

/-- The interval indices `range(0, total_frames, frame_interval)`. -/
def intervalIndices (totalFrames frameInterval : ℕ) : List ℕ :=
  if frameInterval = 0 then []
  else (List.range ((totalFrames + frameInterval - 1) / frameInterval)).map
    (fun i => i * frameInterval)

/-- The body of one sampling interval of `_extract_and_process_frames`:
select the best frame around the interval index (skip the interval when
none is readable), gate on person presence, fuse detections focused on
the primary person box, resolve products, and record the product list
under the frame's timestamp only when it is non-empty. -/
def processInterval {F L : Type} (read : ℤ → Option F) (assess : F → Bool × ℚ)
    (fps : ℚ) (fallbackRange : ℚ) (toImage : F → Image)
    (personCfg : PersonDetectionConfig)
    (personInference : Image → Except String (List (ℚ × ℤ × Box)))
    (detector : ClothingDetector L) (jewelryDetector : JewelryDetector)
    (resolve : ℚ → ℕ → Detection → Except String (List String))
    (framesData : List (ℚ × List Product)) (intervalIdx : ℕ) :
    List (ℚ × List Product) :=
  match selectBestFrameInRange read assess intervalIdx fps fallbackRange with
  | none => framesData
  | some fr =>
    let frame := fr.1
    let frameNum := fr.2.1
    let timestamp := (frameNum : ℚ) / fps
    let pilImage := toImage frame
    if !isPersonPresent personCfg pilImage personInference then framesData
    else
      let personBox := getPrimaryPersonBox personCfg pilImage personInference
      let detections := detectObjectsInFrame detector jewelryDetector pilImage personBox
      let products := findSimilarProducts (resolve timestamp) detections
      if products.isEmpty then framesData
      else storeResult framesData timestamp products
where
  /-- `PersonDetector.get_primary_person_box`: the detected box of highest
  confidence, or `none` when there is none. -/
  getPrimaryPersonBox (cfg : PersonDetectionConfig) (image : Image)
      (inference : Image → Except String (List (ℚ × ℤ × Box))) : Option IntBox :=
    let r := detectPersons cfg image inference
    if !r.1 || r.2.1.isEmpty then none
    else
      match r.2.2.max? with
      | none => none
      | some m => r.2.1.get? (r.2.2.indexOf m)

/-- `_extract_and_process_frames`: fold the per-interval body over the
sampled interval indices, starting from the empty results map. -/
def extractAndProcessFrames {F L : Type} (read : ℤ → Option F) (assess : F → Bool × ℚ)
    (totalFrames frameInterval : ℕ) (fps : ℚ) (fallbackRange : ℚ) (toImage : F → Image)
    (personCfg : PersonDetectionConfig)
    (personInference : Image → Except String (List (ℚ × ℤ × Box)))
    (detector : ClothingDetector L) (jewelryDetector : JewelryDetector)
    (resolve : ℚ → ℕ → Detection → Except String (List String)) :
    List (ℚ × List Product) :=
  (intervalIndices totalFrames frameInterval).foldl
    (fun framesData idx =>
      processInterval read assess fps fallbackRange toImage personCfg personInference
        detector jewelryDetector resolve framesData idx)
    []

/-! ## Specification-side views used by the theorems -/

/-- The match identity a detection resolves to: the first entry of a
successful similarity query, `none` when the query fails or matches
nothing. -/
def resolvedKey (resolve : ℕ → Detection → Except String (List String)) (i : ℕ)
    (det : Detection) : Option String :=
  match resolve i det with
  | .ok (url :: _) => some url
  | _ => none

/-- The readable in-window probes of `_select_best_frame_in_range`, in
probe order, with their frame numbers and quality scores. -/
def probedCandidates {F : Type} (read : ℤ → Option F) (assess : F → Bool × ℚ)
    (center startF endF : ℤ) : List ℤ → List (F × ℤ × ℚ)
  | [] => []
  | off :: rest =>
    if center + off < startF ∨ endF < center + off then
      probedCandidates read assess center startF endF rest
    else
      match read (center + off) with
      | none => probedCandidates read assess center startF endF rest
      | some f => (f, center + off, (assess f).2) ::
          probedCandidates read assess center startF endF rest

/-- The best-so-far update of the probe loop, without the early exit:
replace the candidate when the new score strictly exceeds the best score
so far (`-1` when there is none yet). -/
def stepBest {F : Type} (best : Option (F × ℤ × ℚ)) (c : F × ℤ × ℚ) :
    Option (F × ℤ × ℚ) :=
  if bestQualityOf best < c.2.2 then some c else best

/-- The loop invariant of `_find_similar_products`: over the indexed
detections processed so far, the accumulated unique-products dict has
distinct keys, each stored product carries its key as `image_url` and the
greatest confidence among the processed detections resolving to that key
(attained by one of them), and every processed detection that resolved to
a key has an entry for that key. -/
def ResolverInv (resolve : ℕ → Detection → Except String (List String))
    (seen : List (ℕ × Detection)) (acc : List (String × Product)) : Prop :=
  (acc.map Prod.fst).Nodup ∧
  (∀ kp ∈ acc, kp.2.image_url = kp.1 ∧
    (∃ pr ∈ seen, resolvedKey resolve pr.1 pr.2 = some kp.1 ∧
      pr.2.confidence = kp.2.confidence) ∧
    (∀ pr ∈ seen, resolvedKey resolve pr.1 pr.2 = some kp.1 →
      pr.2.confidence ≤ kp.2.confidence)) ∧
  (∀ pr ∈ seen, ∀ k, resolvedKey resolve pr.1 pr.2 = some k →
    k ∈ acc.map Prod.fst)

/-- A concrete detection used to instantiate witness statements. -/
def sampleDetection : Detection :=
  { label := "shirt"
    confidence := 0.9
    box := ⟨1, 2, 3, 4⟩
    category := Category.clothing }

/-- A concrete product used to instantiate witness statements. -/
def sampleProduct : Product :=
  { object_type := "shirt"
    category := Category.clothing
    image_url := "data/image_db/clothing/img1.jpg"
    title := "Shirt"
    stock := "In Stock"
    confidence := 0.9 }

/-- A clothing detector whose capability reports one confident shirt,
used to instantiate witness statements. -/
def sampleClothingDetector : ClothingDetector ℕ :=
  { infer := fun _ => Except.ok ⟨[⟨1, 2, 3, 4⟩], [0], [0.9]⟩
    confidence_threshold := 0.4
    label_name := fun _ => "shirt" }

/-- A jewelry detector whose capability raises, used to instantiate
witness statements. -/
def failingJewelryDetector : JewelryDetector :=
  { infer := fun _ => Except.error "Roboflow service down"
    confidence_threshold := 0.4 }

/-- A registry entry used to instantiate witness statements. -/
def sampleVideo : VideoInfo :=
  { id := "vid1"
    filename := "a.mp4"
    status := "processing"
    file_path := some "data/uploads/vid1/a.mp4"
    results_dir := some "data/uploads/vid1/results"
    error_message := none }

/-! ## Theorems -/

/-- Keeping loop entries above a threshold is filtering then mapping. -/
theorem foldr_keep_eq_filter_map {α β : Type} (p : α → Prop) [DecidablePred p]
    (g : α → β) (l : List α) :
    l.foldr (fun x acc => if p x then g x :: acc else acc) [] =
      (l.filter (fun x => decide (p x))).map g := by
  induction l with
  | nil => rfl
  | cons x xs ih => by_cases h : p x <;> simp [h, ih]

/-- C9: for any frame metrics with nonnegative sharpness and contrast and
brightness in `[0, 255]`, and any configured brightness window, the
normalized quality score lies in `[0, 1]` and equals the fixed weighted
blend `0.5·min(sharpness/1000, 1) + 0.3·max(0, 1 − |brightness − midpoint|
/ (range/2)) + 0.2·min(contrast/80, 1)` where midpoint and range are the
midpoint and width of the brightness window. -/
theorem quality_score_blend_bounds (cfg : FrameQualityConfig) (m : FrameMetrics)
    (hwin : cfg.min_brightness < cfg.max_brightness)
    (hs : 0 ≤ m.sharpness) (hb0 : 0 ≤ m.brightness) (hb1 : m.brightness ≤ 255)
    (hcon : 0 ≤ m.contrast) :
    0 ≤ calculateNormalizedScore cfg m ∧ calculateNormalizedScore cfg m ≤ 1 ∧
    calculateNormalizedScore cfg m =
      0.5 * min (m.sharpness / 1000) 1
        + 0.3 * max 0 (1 - |m.brightness - (cfg.min_brightness + cfg.max_brightness) / 2|
            / ((cfg.max_brightness - cfg.min_brightness) / 2))
        + 0.2 * min (m.contrast / 80) 1 := by
  have key : calculateNormalizedScore cfg m =
      0.5 * min (m.sharpness / 1000) 1
        + 0.3 * max 0 (1 - |m.brightness - (cfg.min_brightness + cfg.max_brightness) / 2|
            / ((cfg.max_brightness - cfg.min_brightness) / 2))
        + 0.2 * min (m.contrast / 80) 1 := rfl
  have h1a : 0 ≤ min (m.sharpness / 1000) 1 :=
    le_min (by positivity) (by norm_num)
  have h1b : min (m.sharpness / 1000) 1 ≤ 1 := min_le_right _ _
  have hr2 : (0 : ℚ) < (cfg.max_brightness - cfg.min_brightness) / 2 := by linarith
  have hdiv : 0 ≤ |m.brightness - (cfg.min_brightness + cfg.max_brightness) / 2|
      / ((cfg.max_brightness - cfg.min_brightness) / 2) :=
    div_nonneg (abs_nonneg _) hr2.le
  have h2a : 0 ≤ max 0 (1 - |m.brightness - (cfg.min_brightness + cfg.max_brightness) / 2|
      / ((cfg.max_brightness - cfg.min_brightness) / 2)) := le_max_left _ _
  have h2b : max 0 (1 - |m.brightness - (cfg.min_brightness + cfg.max_brightness) / 2|
      / ((cfg.max_brightness - cfg.min_brightness) / 2)) ≤ 1 :=
    max_le (by norm_num) (by linarith)
  have h3a : 0 ≤ min (m.contrast / 80) 1 :=
    le_min (by positivity) (by norm_num)
  have h3b : min (m.contrast / 80) 1 ≤ 1 := min_le_right _ _
  refine ⟨?_, ?_, key⟩ <;> rw [key] <;> linarith

/-- C9 witness: the bounds and the blend identity at a concrete frame
under the default configuration. -/
theorem quality_score_blend_bounds_witness :
    0 ≤ calculateNormalizedScore FRAME_QUALITY_CONFIG ⟨500, 130, 40⟩ ∧
    calculateNormalizedScore FRAME_QUALITY_CONFIG ⟨500, 130, 40⟩ ≤ 1 ∧
    calculateNormalizedScore FRAME_QUALITY_CONFIG ⟨500, 130, 40⟩ =
      0.5 * min ((500 : ℚ) / 1000) 1
        + 0.3 * max 0 (1 - |(130 : ℚ) - (FRAME_QUALITY_CONFIG.min_brightness
            + FRAME_QUALITY_CONFIG.max_brightness) / 2|
            / ((FRAME_QUALITY_CONFIG.max_brightness
            - FRAME_QUALITY_CONFIG.min_brightness) / 2))
        + 0.2 * min ((40 : ℚ) / 80) 1 :=
  quality_score_blend_bounds FRAME_QUALITY_CONFIG ⟨500, 130, 40⟩
    (by norm_num [FRAME_QUALITY_CONFIG]) (by norm_num) (by norm_num) (by norm_num)
    (by norm_num)

/-- C8: the person gate reports `has_person = true` with empty box and
confidence lists both when person detection is disabled by configuration
and when the underlying detection capability raises; it never reports
`has_person = false` in either situation. -/
theorem person_gate_fails_open (cfg : PersonDetectionConfig) (image : Image)
    (inference : Image → Except String (List (ℚ × ℤ × Box))) (e : String) :
    (cfg.enable_person_detection = false →
      detectPersons cfg image inference = (true, [], [])) ∧
    (inference image = Except.error e →
      detectPersons cfg image inference = (true, [], [])) := by
  constructor
  · intro h
    simp [detectPersons, h]
  · intro h
    by_cases hen : cfg.enable_person_detection
    · simp [detectPersons, hen, h]
    · simp [detectPersons, hen]

/-- C8 witness: the gate fails open at a concrete disabled configuration
and at a concrete raising capability. -/
theorem person_gate_fails_open_witness :
    detectPersons ⟨false, 0.5, 0.05⟩ (Image.frame 100 100)
      (fun _ => Except.ok []) = (true, [], []) ∧
    detectPersons ⟨true, 0.5, 0.05⟩ (Image.frame 100 100)
      (fun _ => Except.error "model load failed") = (true, [], []) :=
  ⟨(person_gate_fails_open ⟨false, 0.5, 0.05⟩ (Image.frame 100 100)
      (fun _ => Except.ok []) "x").1 rfl,
   (person_gate_fails_open ⟨true, 0.5, 0.05⟩ (Image.frame 100 100)
      (fun _ => Except.error "model load failed") "model load failed").2 rfl⟩

/-- Looking up the updated id in an updated registry sees the update. -/
theorem lookup_updateVideo (videos : List (String × VideoInfo)) (videoId : String)
    (f : VideoInfo → VideoInfo) :
    (updateVideo videos videoId f).lookup videoId = (videos.lookup videoId).map f := by
  induction videos with
  | nil => rfl
  | cons kv rest ih =>
    obtain ⟨k, v⟩ := kv
    by_cases h : k = videoId
    · subst h
      show List.lookup k ((if k = k then (k, f v) else (k, v)) :: updateVideo rest k f) =
        Option.map f (List.lookup k ((k, v) :: rest))
      rw [if_pos rfl]
      simp [List.lookup]
    · show List.lookup videoId
          ((if k = videoId then (k, f v) else (k, v)) :: updateVideo rest videoId f) =
        Option.map f (List.lookup videoId ((k, v) :: rest))
      rw [if_neg h]
      have hne : (videoId == k) = false := by
        simp [Ne.symm h]
      simp [List.lookup, hne, ih]

/-- C7: when extraction raises (the video source cannot be opened, or any
uncaught exception occurs), `process_video` writes no results file and
marks the job failed with the captured error message. -/
theorem job_failure_marks_failed_writes_nothing (videos : List (String × VideoInfo))
    (videoId : String) (v : VideoInfo) (e : String)
    (hv : videos.lookup videoId = some v) :
    (processVideo videos videoId (Except.error e)).2 = none ∧
    (processVideo videos videoId (Except.error e)).1.lookup videoId =
      some { v with status := "failed", error_message := some e } := by
  constructor
  · simp [processVideo, hv]
  · simp [processVideo, hv, lookup_updateVideo]

/-- C7 witness: a concrete failed job run ends failed, with the message,
and with nothing written. -/
theorem job_failure_marks_failed_writes_nothing_witness :
    (processVideo [("vid1", sampleVideo)] "vid1"
      (Except.error "Failed to open video: data/uploads/vid1/a.mp4")).2 = none ∧
    (processVideo [("vid1", sampleVideo)] "vid1"
      (Except.error "Failed to open video: data/uploads/vid1/a.mp4")).1.lookup "vid1" =
      some { sampleVideo with status := "failed", error_message := some "Failed to open video: data/uploads/vid1/a.mp4" } :=
  job_failure_marks_failed_writes_nothing [("vid1", sampleVideo)] "vid1" sampleVideo
    "Failed to open video: data/uploads/vid1/a.mp4" (by simp [List.lookup])

/-- C1: a detector capability that raises during fusion contributes zero
detections and the fused output is exactly the other category's kept
detections; the frame is never aborted. -/
theorem fusion_survives_detector_failure {L : Type} (d : ClothingDetector L)
    (jd : JewelryDetector) (image : Image) (personBox : Option IntBox) (e : String) :
    (jd.infer (detectionTarget image personBox).1 = Except.error e →
      detectObjectsInFrame d jd image personBox =
        keptDetections d.confidence_threshold d.label_name Category.clothing
          (d.detect_objects (detectionTarget image personBox).1)
          (personBox.map (fun _ => ((detectionTarget image personBox).2.1,
            (detectionTarget image personBox).2.2)))) ∧
    (d.infer (detectionTarget image personBox).1 = Except.error e →
      detectObjectsInFrame d jd image personBox =
        keptDetections jd.confidence_threshold JewelryDetector.get_label_name
          Category.jewelry (jd.detect_objects (detectionTarget image personBox).1)
          (personBox.map (fun _ => ((detectionTarget image personBox).2.1,
            (detectionTarget image personBox).2.2)))) := by
  constructor
  · intro h
    simp [detectObjectsInFrame, JewelryDetector.detect_objects, h,
      RawDetections.empty, keptDetections]
  · intro h
    simp [detectObjectsInFrame, ClothingDetector.detect_objects, h,
      RawDetections.empty, keptDetections]

/-- C1 witness: with a failing jewelry capability, fusion still returns
the clothing detection of a concrete run. -/
theorem fusion_survives_detector_failure_witness :
    detectObjectsInFrame sampleClothingDetector failingJewelryDetector
      (Image.frame 640 480) none =
      [{ label := "shirt", confidence := 0.9, box := ⟨1, 2, 3, 4⟩,
         category := Category.clothing }] := by
  have h := (fusion_survives_detector_failure sampleClothingDetector
    failingJewelryDetector (Image.frame 640 480) none "Roboflow service down").1 rfl
  rw [h]
  simp [keptDetections, sampleClothingDetector, ClothingDetector.detect_objects,
    detectionTarget]
  norm_num

/-- A detector's contribution under a crop offset is the thresholded
filter of its raw results, mapped to translated, tagged detections. -/
theorem keptDetections_some_eq {L : Type} (t : ℚ) (name : L → String)
    (cat : Category) (raw : RawDetections L) (ox oy : ℤ) :
    keptDetections t name cat raw (some (ox, oy)) =
      ((raw.scores.zip (raw.labels.zip raw.boxes)).filter
          (fun slb => decide (t ≤ slb.1))).map
        (fun slb =>
          { label := name slb.2.1
            confidence := slb.1
            box := slb.2.2.translate ox oy
            category := cat }) := by
  unfold keptDetections
  exact foldr_keep_eq_filter_map (β := Detection) (fun slb => t ≤ slb.1)
    (fun slb =>
      { label := name slb.2.1
        confidence := slb.1
        box := slb.2.2.translate ox oy
        category := cat })
    (raw.scores.zip (raw.labels.zip raw.boxes))

/-- C6: with a supplied person box, fusion runs both detectors on the
frame cropped to the person box expanded by the 5% padding ratio and
clamped to the frame bounds, keeps exactly the detections at or above
their own detector's threshold, translates every kept box by the crop's
top-left offset, and tags each kept detection with its source category. -/
theorem fusion_person_crop_semantics {L : Type} (d : ClothingDetector L)
    (jd : JewelryDetector) (image : Image) (pb : IntBox) :
    detectObjectsInFrame d jd image (some pb) =
      (let c : IntBox :=
        { x1 := max 0 (pb.x1 - pyInt (((pb.x2 - pb.x1 : ℤ) : ℚ) * 0.05))
          y1 := max 0 (pb.y1 - pyInt (((pb.y2 - pb.y1 : ℤ) : ℚ) * 0.05))
          x2 := min image.width (pb.x2 + pyInt (((pb.x2 - pb.x1 : ℤ) : ℚ) * 0.05))
          y2 := min image.height (pb.y2 + pyInt (((pb.y2 - pb.y1 : ℤ) : ℚ) * 0.05)) }
      let cRaw := d.detect_objects (Image.cropTo image c)
      let jRaw := jd.detect_objects (Image.cropTo image c)
      ((cRaw.scores.zip (cRaw.labels.zip cRaw.boxes)).filter
          (fun slb => decide (d.confidence_threshold ≤ slb.1))).map
        (fun slb =>
          { label := d.label_name slb.2.1
            confidence := slb.1
            box := slb.2.2.translate c.x1 c.y1
            category := Category.clothing })
      ++ ((jRaw.scores.zip (jRaw.labels.zip jRaw.boxes)).filter
          (fun slb => decide (jd.confidence_threshold ≤ slb.1))).map
        (fun slb =>
          { label := JewelryDetector.get_label_name slb.2.1
            confidence := slb.1
            box := slb.2.2.translate c.x1 c.y1
            category := Category.jewelry })) := by
  show keptDetections d.confidence_threshold d.label_name Category.clothing
      (d.detect_objects (Image.cropTo image (paddedPersonBox image.width image.height pb)))
      (some ((paddedPersonBox image.width image.height pb).x1,
        (paddedPersonBox image.width image.height pb).y1))
    ++ keptDetections jd.confidence_threshold JewelryDetector.get_label_name
      Category.jewelry
      (jd.detect_objects (Image.cropTo image (paddedPersonBox image.width image.height pb)))
      (some ((paddedPersonBox image.width image.height pb).x1,
        (paddedPersonBox image.width image.height pb).y1)) = _
  rw [keptDetections_some_eq, keptDetections_some_eq]
  rfl

/-- Every entry of a stored-results update is the stored value or an old
entry. -/
theorem mem_storeResult (framesData : List (ℚ × List Product)) (t : ℚ)
    (v : List Product) (kv : ℚ × List Product) (h : kv ∈ storeResult framesData t v) :
    kv.2 = v ∨ kv ∈ framesData := by
  unfold storeResult at h
  split at h
  · rcases List.mem_map.mp h with ⟨kv0, hkv0, heq⟩
    by_cases h1 : kv0.1 = t
    · rw [if_pos h1] at heq
      left
      rw [← heq]
    · rw [if_neg h1] at heq
      right
      rw [← heq]
      exact hkv0
  · rcases List.mem_append.mp h with h | h
    · right; exact h
    · left
      rw [List.mem_singleton.mp h]

/-- One interval of the extraction loop only ever adds a non-empty
product list to the results map. -/
theorem processInterval_preserves_nonempty {F L : Type} (read : ℤ → Option F)
    (assess : F → Bool × ℚ) (fps : ℚ) (fallbackRange : ℚ) (toImage : F → Image)
    (personCfg : PersonDetectionConfig)
    (personInference : Image → Except String (List (ℚ × ℤ × Box)))
    (detector : ClothingDetector L) (jewelryDetector : JewelryDetector)
    (resolve : ℚ → ℕ → Detection → Except String (List String))
    (framesData : List (ℚ × List Product)) (intervalIdx : ℕ)
    (hinv : ∀ kv ∈ framesData, kv.2 ≠ []) :
    ∀ kv ∈ processInterval read assess fps fallbackRange toImage personCfg
        personInference detector jewelryDetector resolve framesData intervalIdx,
      kv.2 ≠ [] := by
  intro kv hkv
  unfold processInterval at hkv
  rcases hsel : selectBestFrameInRange read assess (intervalIdx : ℤ) fps fallbackRange with
    _ | fr
  · rw [hsel] at hkv
    exact hinv kv hkv
  · rw [hsel] at hkv
    simp only at hkv
    by_cases hp : isPersonPresent personCfg (toImage fr.1) personInference
    · rw [hp] at hkv
      simp only [Bool.not_true, Bool.false_eq_true, if_false] at hkv
      set products := findSimilarProducts
        (resolve ((fr.2.1 : ℚ) / fps))
        (detectObjectsInFrame detector jewelryDetector (toImage fr.1)
          (processInterval.getPrimaryPersonBox personCfg (toImage fr.1) personInference))
        with hprod
      by_cases he : products.isEmpty
      · rw [hprod] at hkv
        rw [← hprod] at hkv
        rw [he] at hkv
        simp only [if_true] at hkv
        exact hinv kv hkv
      · rw [hprod] at hkv
        rw [← hprod] at hkv
        rw [Bool.not_eq_true] at he
        rw [he] at hkv
        simp only [Bool.false_eq_true, if_false] at hkv
        rcases mem_storeResult _ _ _ _ hkv with h | h
        · rw [h]
          intro hc
          rw [hc] at he
          simp at he
        · exact hinv kv h
    · rw [Bool.not_eq_true] at hp
      rw [hp] at hkv
      simp only [Bool.not_false, if_true] at hkv
      exact hinv kv hkv

/-- C10: every timestamp entry of the accumulated (and then persisted)
results map of `_extract_and_process_frames` carries a non-empty product
list; an interval whose resolution yields no products creates no entry. -/
theorem results_map_entries_nonempty {F L : Type} (read : ℤ → Option F)
    (assess : F → Bool × ℚ) (totalFrames frameInterval : ℕ) (fps : ℚ)
    (fallbackRange : ℚ) (toImage : F → Image)
    (personCfg : PersonDetectionConfig)
    (personInference : Image → Except String (List (ℚ × ℤ × Box)))
    (detector : ClothingDetector L) (jewelryDetector : JewelryDetector)
    (resolve : ℚ → ℕ → Detection → Except String (List String)) :
    ∀ kv ∈ extractAndProcessFrames read assess totalFrames frameInterval fps
        fallbackRange toImage personCfg personInference detector jewelryDetector
        resolve,
      kv.2 ≠ [] := by
  unfold extractAndProcessFrames
  have key : ∀ (idxs : List ℕ) (acc : List (ℚ × List Product)),
      (∀ kv ∈ acc, kv.2 ≠ []) →
      ∀ kv ∈ idxs.foldl
          (fun framesData idx =>
            processInterval read assess fps fallbackRange toImage personCfg
              personInference detector jewelryDetector resolve framesData idx)
          acc,
        kv.2 ≠ [] := by
    intro idxs
    induction idxs with
    | nil => intro acc hacc; simpa using hacc
    | cons i rest ih =>
      intro acc hacc
      exact ih _ (processInterval_preserves_nonempty read assess fps fallbackRange
        toImage personCfg personInference detector jewelryDetector resolve acc i hacc)
  exact key _ [] (by simp)

/-- C4: when the frame at the center index is readable and passes the
quality check, `_select_best_frame_in_range` returns exactly that frame,
with its frame number equal to the center index, and its score. -/
theorem selector_returns_passing_center {F : Type} (read : ℤ → Option F)
    (assess : F → Bool × ℚ) (center : ℤ) (fps searchRangeSeconds : ℚ) (f : F) (q : ℚ)
    (hcenter : 0 ≤ center) (hread : read center = some f)
    (hassess : assess f = (true, q)) (hq : -1 < q) :
    selectBestFrameInRange read assess center fps searchRangeSeconds =
      some (f, center, q) := by
  unfold selectBestFrameInRange probeOffsets
  have h1 : ¬(center < max 0 (center - ((pyInt (fps * searchRangeSeconds)).toNat : ℤ))
      ∨ center + ((pyInt (fps * searchRangeSeconds)).toNat : ℤ) < center) := by
    generalize (pyInt (fps * searchRangeSeconds)).toNat = n
    omega
  rw [selectLoop]
  simp only [add_zero, h1, if_false, hread, hassess, bestQualityOf, hq, if_true]

/-- C4 witness: a concrete passing center frame is returned unchanged. -/
theorem selector_returns_passing_center_witness :
    selectBestFrameInRange (fun n => if n = 0 then some 7 else (none : Option ℕ))
      (fun _ => (true, 1)) 0 10 1 = some (7, 0, 1) :=
  selector_returns_passing_center (fun n => if n = 0 then some 7 else none)
    (fun _ => (true, 1)) 0 10 1 7 1 le_rfl (by simp) rfl (by norm_num)

/-- The first-minimizer scan of `min(timestamps, key = distance)` returns
a member of the scanned list. -/
theorem closestTo_mem (target t : ℚ) (rest : List ℚ) :
    getResults.closestTo target t rest ∈ t :: rest := by
  induction rest generalizing t with
  | nil => simp [getResults.closestTo]
  | cons u rest ih =>
    rw [getResults.closestTo]
    split
    · exact List.mem_cons_of_mem t (ih u)
    · exact List.mem_cons_self t _

/-- The first-minimizer scan attains the minimum distance to the target. -/
theorem closestTo_min (target t : ℚ) (rest : List ℚ) :
    ∀ u ∈ t :: rest,
      |getResults.closestTo target t rest - target| ≤ |u - target| := by
  induction rest generalizing t with
  | nil =>
    intro u hu
    rw [List.mem_singleton.mp hu]
    simp [getResults.closestTo]
  | cons w rest ih =>
    intro u hu
    rw [getResults.closestTo]
    rcases List.mem_cons.mp hu with h | h
    · subst h
      split
      · next hlt => exact hlt.le
      · exact le_rfl
    · have hmin := ih w u h
      split
      · exact hmin
      · next hge => exact (not_lt.mp hge).trans hmin

/-- C3: `get_results` on a completed job's stored results returns the
empty list when every stored timestamp is farther than `2 × interval`
from `round(t / interval) × interval`, and otherwise returns the product
list stored at a timestamp nearest that rounded value (and within the
tolerance). -/
theorem results_lookup_tolerance (interval : ℚ) (store : List (ℚ × List Product))
    (t : ℚ) (hI : 0 < interval) :
    ((∀ kv ∈ store, interval * 2 < |kv.1 - (pyRound (t / interval) : ℚ) * interval|) →
      getResults interval store t = []) ∧
    (∀ u ps, (u, ps) ∈ store →
      |u - (pyRound (t / interval) : ℚ) * interval| ≤ interval * 2 →
      ∃ c cps, (c, cps) ∈ store ∧
        |c - (pyRound (t / interval) : ℚ) * interval| ≤ interval * 2 ∧
        (∀ kv ∈ store, |c - (pyRound (t / interval) : ℚ) * interval| ≤
          |kv.1 - (pyRound (t / interval) : ℚ) * interval|) ∧
        getResults interval store t = cps) := by
  constructor
  · intro hfar
    match store with
    | [] => rfl
    | first :: rest =>
      rw [getResults]
      have hmem := closestTo_mem ((pyRound (t / interval) : ℚ) * interval) first.1
        (rest.map Prod.fst)
      have : getResults.closestTo ((pyRound (t / interval) : ℚ) * interval) first.1
          (rest.map Prod.fst) ∈ (first :: rest).map Prod.fst := by
        simpa using hmem
      rcases List.mem_map.mp this with ⟨kv, hkv, hfst⟩
      rw [if_pos]
      rw [← hfst]
      exact hfar kv hkv
  · intro u ps hmem htol
    match store with
    | [] => exact absurd hmem (List.not_mem_nil (u, ps))
    | first :: rest =>
      set target : ℚ := (pyRound (t / interval) : ℚ) * interval with htarget
      set closest : ℚ := getResults.closestTo target first.1 (rest.map Prod.fst)
        with hclosest
      have hcmem : closest ∈ (first :: rest).map Prod.fst := by
        simpa using closestTo_mem target first.1 (rest.map Prod.fst)
      have hcmin : ∀ kv ∈ first :: rest, |closest - target| ≤ |kv.1 - target| := by
        intro kv hkv
        apply closestTo_min target first.1 (rest.map Prod.fst)
        simpa using List.mem_map_of_mem Prod.fst hkv
      have htolc : |closest - target| ≤ interval * 2 :=
        (hcmin (u, ps) hmem).trans htol
      have hfind : ∃ kv, (first :: rest).find? (fun kv => kv.1 = closest) = some kv := by
        rcases List.mem_map.mp hcmem with ⟨kv, hkv, hfst⟩
        have hsome : ((first :: rest).find? (fun kv => kv.1 = closest)).isSome := by
          rw [List.find?_isSome]
          exact ⟨kv, hkv, by simp [hfst]⟩
        exact Option.isSome_iff_exists.mp hsome
      rcases hfind with ⟨kv0, hkv0⟩
      obtain ⟨k0, v0⟩ := kv0
      have hkv0mem : (k0, v0) ∈ first :: rest := List.mem_of_find?_eq_some hkv0
      have hkv0key : k0 = closest := by
        have := List.find?_some hkv0
        simpa using this
      refine ⟨k0, v0, hkv0mem, ?_, ?_, ?_⟩
      · rw [hkv0key]; exact htolc
      · intro kv hkv
        rw [hkv0key]
        exact hcmin kv hkv
      · rw [getResults]
        rw [if_neg (by rw [← hclosest, ← htarget]; exact not_lt.mpr htolc)]
        rw [← hclosest, hkv0]

/-- C3 witness: with stored timestamp `10.0` and interval `5`, a query at
`t = 12.0` rounds to `10.0` and returns the stored products. -/
theorem results_lookup_tolerance_witness :
    getResults 5 [((10 : ℚ), [sampleProduct])] 12 = [sampleProduct] := by
  obtain ⟨c, cps, hmem, -, -, hres⟩ :=
    (results_lookup_tolerance 5 [((10 : ℚ), [sampleProduct])] 12 (by norm_num)).2
      10 [sampleProduct] (List.mem_singleton_self _) (by norm_num [pyRound])
  rw [hres]
  exact (Prod.ext_iff.mp (List.mem_singleton.mp hmem)).2

/-- Under a window with no quality-passing frame, the probe loop never
takes its early exit and computes the fold of the best-so-far update over
the readable in-window probes. -/
theorem selectLoop_eq_foldl {F : Type} (read : ℤ → Option F) (assess : F → Bool × ℚ)
    (center startF endF : ℤ) (offs : List ℤ) (best : Option (F × ℤ × ℚ))
    (hnopass : ∀ off ∈ offs, ∀ f, ¬(center + off < startF ∨ endF < center + off) →
      read (center + off) = some f → (assess f).1 = false) :
    selectLoop read assess center startF endF offs best =
      (probedCandidates read assess center startF endF offs).foldl stepBest best := by
  induction offs generalizing best with
  | nil => rfl
  | cons off rest ih =>
    have hrest : ∀ o ∈ rest, ∀ f, ¬(center + o < startF ∨ endF < center + o) →
        read (center + o) = some f → (assess f).1 = false :=
      fun o ho => hnopass o (List.mem_cons_of_mem _ ho)
    rw [selectLoop, probedCandidates]
    by_cases hrange : center + off < startF ∨ endF < center + off
    · rw [if_pos hrange, if_pos hrange]
      exact ih best hrest
    · rw [if_neg hrange, if_neg hrange]
      cases hread : read (center + off) with
      | none => exact ih best hrest
      | some f =>
        have hfail : (assess f).1 = false :=
          hnopass off (List.mem_cons_self _ _) f hrange hread
        simp only []
        rw [List.foldl_cons, stepBest]
        by_cases hlt : bestQualityOf best < (assess f).2
        · rw [if_pos hlt, if_pos hlt]
          simp only [hfail, Bool.false_eq_true, if_false]
          exact ih (some (f, center + off, (assess f).2)) hrest
        · rw [if_neg hlt, if_neg hlt]
          exact ih best hrest

/-- Folding the best-so-far update from an existing candidate never
yields nothing. -/
theorem foldl_stepBest_isSome {F : Type} (cs : List (F × ℤ × ℚ)) (b0 : F × ℤ × ℚ) :
    ∃ b, cs.foldl stepBest (some b0) = some b := by
  induction cs generalizing b0 with
  | nil => exact ⟨b0, rfl⟩
  | cons c rest ih =>
    rw [List.foldl_cons, stepBest]
    simp only [bestQualityOf]
    by_cases h : b0.2.2 < c.2.2
    · rw [if_pos h]; exact ih c
    · rw [if_neg h]; exact ih b0

/-- With all candidate scores above the `-1` sentinel, the fold from
nothing yields nothing exactly when there are no candidates. -/
theorem foldl_stepBest_none_iff {F : Type} (cs : List (F × ℤ × ℚ))
    (hpos : ∀ c ∈ cs, (-1 : ℚ) < c.2.2) :
    cs.foldl stepBest none = none ↔ cs = [] := by
  cases cs with
  | nil => simp
  | cons c rest =>
    rw [List.foldl_cons, stepBest]
    simp only [bestQualityOf]
    rw [if_pos (hpos c (List.mem_cons_self _ _))]
    rcases foldl_stepBest_isSome rest c with ⟨b, hb⟩
    rw [hb]
    simp

/-- The fold of the best-so-far update from a candidate returns either
its start (which then dominates all candidates) or a strictly better
candidate that dominates all candidates and strictly dominates everything
probed before it. -/
theorem foldl_stepBest_max {F : Type} (cs : List (F × ℤ × ℚ)) (b0 b : F × ℤ × ℚ)
    (h : cs.foldl stepBest (some b0) = some b) :
    (b = b0 ∧ ∀ x ∈ cs, x.2.2 ≤ b0.2.2) ∨
    (b0.2.2 < b.2.2 ∧ ∃ pre suf, cs = pre ++ b :: suf ∧
      (∀ x ∈ pre, x.2.2 < b.2.2) ∧ (∀ x ∈ suf, x.2.2 ≤ b.2.2)) := by
  induction cs generalizing b0 with
  | nil =>
    left
    refine ⟨(Option.some.injEq _ _ ▸ h).symm, by simp⟩
  | cons c rest ih =>
    rw [List.foldl_cons, stepBest] at h
    simp only [bestQualityOf] at h
    by_cases hc : b0.2.2 < c.2.2
    · rw [if_pos hc] at h
      rcases ih c h with ⟨hb, hmax⟩ | ⟨hlt, pre, suf, heq, hpre, hsuf⟩
      · right
        refine ⟨by rw [hb]; exact hc, [], rest, by rw [hb, List.nil_append], by simp, ?_⟩
        intro x hx
        rw [hb]
        exact hmax x hx
      · right
        refine ⟨hc.trans hlt, c :: pre, suf, by rw [heq, List.cons_append], ?_, hsuf⟩
        intro x hx
        rcases List.mem_cons.mp hx with h | h
        · rw [h]; exact hlt
        · exact hpre x h
    · rw [if_neg hc] at h
      rcases ih b0 h with ⟨hb, hmax⟩ | ⟨hlt, pre, suf, heq, hpre, hsuf⟩
      · left
        refine ⟨hb, ?_⟩
        intro x hx
        rcases List.mem_cons.mp hx with h | h
        · rw [h]; exact not_lt.mp hc
        · exact hmax x h
      · right
        refine ⟨hlt, c :: pre, suf, by rw [heq, List.cons_append], ?_, hsuf⟩
        intro x hx
        rcases List.mem_cons.mp hx with h | h
        · rw [h]; exact (not_lt.mp hc).trans_lt hlt
        · exact hpre x h

/-- Every readable probe candidate's recorded score is the assessed score
of its frame. -/
theorem probedCandidates_score {F : Type} (read : ℤ → Option F) (assess : F → Bool × ℚ)
    (center startF endF : ℤ) (offs : List ℤ) :
    ∀ c ∈ probedCandidates read assess center startF endF offs,
      c.2.2 = (assess c.1).2 := by
  induction offs with
  | nil => simp [probedCandidates]
  | cons off rest ih =>
    intro c hc
    rw [probedCandidates] at hc
    split at hc
    · exact ih c hc
    · split at hc
      · exact ih c hc
      · rcases List.mem_cons.mp hc with h | h
        · rw [h]
        · exact ih c h

/-- C5: when no frame in the probe window passes the quality check,
`_select_best_frame_in_range` returns `none` exactly when no probed frame
in the window was readable, and otherwise returns a readable probed frame
whose quality score is maximal, earliest in probe order among ties. -/
theorem selector_fallback_best {F : Type} (read : ℤ → Option F) (assess : F → Bool × ℚ)
    (center : ℤ) (fps searchRangeSeconds : ℚ)
    (hnopass : ∀ n, ∀ f : F,
      max 0 (center - ((pyInt (fps * searchRangeSeconds)).toNat : ℤ)) ≤ n →
      n ≤ center + ((pyInt (fps * searchRangeSeconds)).toNat : ℤ) →
      read n = some f → (assess f).1 = false)
    (hscore : ∀ f : F, (-1 : ℚ) < (assess f).2) :
    (selectBestFrameInRange read assess center fps searchRangeSeconds = none ↔
      probedCandidates read assess center
        (max 0 (center - ((pyInt (fps * searchRangeSeconds)).toNat : ℤ)))
        (center + ((pyInt (fps * searchRangeSeconds)).toNat : ℤ))
        (probeOffsets (pyInt (fps * searchRangeSeconds)).toNat) = []) ∧
    (∀ b, selectBestFrameInRange read assess center fps searchRangeSeconds = some b →
      b ∈ probedCandidates read assess center
        (max 0 (center - ((pyInt (fps * searchRangeSeconds)).toNat : ℤ)))
        (center + ((pyInt (fps * searchRangeSeconds)).toNat : ℤ))
        (probeOffsets (pyInt (fps * searchRangeSeconds)).toNat) ∧
      (∀ x ∈ probedCandidates read assess center
        (max 0 (center - ((pyInt (fps * searchRangeSeconds)).toNat : ℤ)))
        (center + ((pyInt (fps * searchRangeSeconds)).toNat : ℤ))
        (probeOffsets (pyInt (fps * searchRangeSeconds)).toNat), x.2.2 ≤ b.2.2) ∧
      ∃ pre suf, probedCandidates read assess center
        (max 0 (center - ((pyInt (fps * searchRangeSeconds)).toNat : ℤ)))
        (center + ((pyInt (fps * searchRangeSeconds)).toNat : ℤ))
        (probeOffsets (pyInt (fps * searchRangeSeconds)).toNat) = pre ++ b :: suf ∧
        ∀ x ∈ pre, x.2.2 < b.2.2) := by
  set startF : ℤ := max 0 (center - ((pyInt (fps * searchRangeSeconds)).toNat : ℤ))
    with hstart
  set endF : ℤ := center + ((pyInt (fps * searchRangeSeconds)).toNat : ℤ) with hend
  set cands := probedCandidates read assess center startF endF
    (probeOffsets (pyInt (fps * searchRangeSeconds)).toNat) with hcands
  have hloop : selectBestFrameInRange read assess center fps searchRangeSeconds =
      cands.foldl stepBest none := by
    unfold selectBestFrameInRange
    rw [selectLoop_eq_foldl]
    intro off _ f hin hread
    rw [not_or] at hin
    exact hnopass (center + off) f (not_lt.mp hin.1) (not_lt.mp hin.2) hread
  have hposc : ∀ c ∈ cands, (-1 : ℚ) < c.2.2 := by
    intro c hc
    rw [probedCandidates_score read assess center startF endF _ c hc]
    exact hscore c.1
  constructor
  · rw [hloop]
    exact foldl_stepBest_none_iff cands hposc
  · intro b hb
    rw [hloop] at hb
    match hcs : cands with
    | [] => exact absurd hb (by simp)
    | c :: rest =>
      rw [List.foldl_cons, stepBest] at hb
      simp only [bestQualityOf] at hb
      rw [if_pos (hposc c (List.mem_cons_self _ _))] at hb
      rcases foldl_stepBest_max rest c b hb with ⟨hbc, hmax⟩ |
        ⟨hlt, pre, suf, heq, hpre, hsuf⟩
      · refine ⟨by rw [hbc]; exact List.mem_cons_self _ _, ?_, [], rest,
          by rw [hbc, List.nil_append], by simp⟩
        intro x hx
        rcases List.mem_cons.mp hx with h | h
        · exact le_of_eq (by rw [h, hbc])
        · rw [hbc]; exact hmax x h
      · refine ⟨?_, ?_, c :: pre, suf, by rw [heq, List.cons_append], ?_⟩
        · rw [heq]
          exact List.mem_cons_of_mem c (by simp)
        · intro x hx
          rcases List.mem_cons.mp hx with h | h
          · rw [h]; exact hlt.le
          · rw [heq] at h
            rcases List.mem_append.mp h with h | h
            · exact (hpre x h).le
            · rcases List.mem_cons.mp h with h | h
              · exact le_of_eq (by rw [h])
              · exact hsuf x h
        · intro x hx
          rcases List.mem_cons.mp hx with h | h
          · rw [h]; exact hlt
          · exact hpre x h

/-- C5 witness: with no passing frame in a concrete window, the returned
frame is among the readable probes (here, the one with the top score). -/
theorem selector_fallback_best_witness :
    ((0 : ℕ), (0 : ℤ), (0 : ℚ)) ∈ probedCandidates
      (fun n => if n = 0 then some (0 : ℕ) else none)
      (fun f => (false, (f : ℚ))) 0
      (max 0 (0 - ((pyInt ((0 : ℚ) * 0)).toNat : ℤ)))
      (0 + ((pyInt ((0 : ℚ) * 0)).toNat : ℤ))
      (probeOffsets (pyInt ((0 : ℚ) * 0)).toNat) := by
  have hb : selectBestFrameInRange
      (fun n => if n = 0 then some (0 : ℕ) else none)
      (fun f => (false, (f : ℚ))) 0 0 0 = some (0, 0, 0) := by
    norm_num [selectBestFrameInRange, probeOffsets, probeOffsets.offsetsFrom,
      selectLoop, bestQualityOf, pyInt]
  have h := (selector_fallback_best
    (fun n => if n = 0 then some (0 : ℕ) else none)
    (fun f => (false, (f : ℚ))) 0 0 0
    (fun _ f _ _ _ => rfl)
    (fun f => lt_of_lt_of_le (by norm_num) (Nat.cast_nonneg f))).2
  exact (h ((0 : ℕ), (0 : ℤ), (0 : ℚ)) hb).1

/-- Updating an absent key appends the new unique product. -/
theorem updateBest_not_mem (acc : List (String × Product)) (key : String) (p : Product)
    (h : key ∉ acc.map Prod.fst) :
    updateBest acc key p = acc ++ [(key, p)] := by
  induction acc with
  | nil => rfl
  | cons kv rest ih =>
    rw [updateBest]
    have h1 : kv.1 ≠ key := by
      intro he
      apply h
      rw [List.map_cons, ← he]
      exact List.mem_cons_self _ _
    rw [if_neg h1]
    have h2 : key ∉ rest.map Prod.fst := by
      intro hm
      apply h
      rw [List.map_cons]
      exact List.mem_cons_of_mem _ hm
    rw [ih h2, List.cons_append]

/-- Updating a present key (keys distinct) rewrites exactly that entry in
place, replacing its product only on strictly greater confidence. -/
theorem updateBest_mem_spec (acc : List (String × Product)) (key : String) (p : Product)
    (hnd : (acc.map Prod.fst).Nodup) (h : key ∈ acc.map Prod.fst) :
    ∃ l1 q l2, acc = l1 ++ (key, q) :: l2 ∧ key ∉ l1.map Prod.fst ∧
      key ∉ l2.map Prod.fst ∧
      updateBest acc key p =
        l1 ++ (key, if q.confidence < p.confidence then p else q) :: l2 := by
  induction acc with
  | nil => simp at h
  | cons kv rest ih =>
    obtain ⟨k, v⟩ := kv
    by_cases h1 : k = key
    · subst h1
      refine ⟨[], v, rest, by rw [List.nil_append], by simp, ?_, ?_⟩
      · exact (List.nodup_cons.mp (by simpa using hnd)).1
      · rw [updateBest, if_pos rfl, List.nil_append]
        by_cases hc : v.confidence < p.confidence
        · rw [if_pos hc, if_pos hc]
        · rw [if_neg hc, if_neg hc]
    · have hmem : key ∈ rest.map Prod.fst := by
        have h3 : key = k ∨ ∃ x, (key, x) ∈ rest := by simpa using h
        rcases h3 with h2 | ⟨x, hx⟩
        · exact absurd h2.symm h1
        · simpa using List.mem_map_of_mem Prod.fst hx
      have hnd2 : (rest.map Prod.fst).Nodup := (List.nodup_cons.mp (by simpa using hnd)).2
      rcases ih hnd2 hmem with ⟨l1, q, l2, heq, hl1, hl2, hupd⟩
      refine ⟨(k, v) :: l1, q, l2, by rw [heq, List.cons_append], ?_, hl2, ?_⟩
      · simp only [List.map_cons, List.mem_cons]
        push_neg
        exact ⟨fun he => h1 he.symm, hl1⟩
      · rw [updateBest, if_neg h1, hupd, List.cons_append]

/-- Recording a detection that resolved to nothing preserves the resolver
loop invariant. -/
theorem ResolverInv_extend_none (resolve : ℕ → Detection → Except String (List String))
    (seen : List (ℕ × Detection)) (acc : List (String × Product)) (i : ℕ)
    (det : Detection) (hInv : ResolverInv resolve seen acc)
    (hkey : resolvedKey resolve i det = none) :
    ResolverInv resolve (seen ++ [(i, det)]) acc := by
  obtain ⟨hnd, hent, hcov⟩ := hInv
  refine ⟨hnd, ?_, ?_⟩
  · intro kp hkp
    obtain ⟨hurl, ⟨pr, hpr, hk, hc⟩, hmax⟩ := hent kp hkp
    refine ⟨hurl, ⟨pr, List.mem_append_left _ hpr, hk, hc⟩, ?_⟩
    intro pr2 hpr2 hk2
    rcases List.mem_append.mp hpr2 with h2 | h2
    · exact hmax pr2 h2 hk2
    · rw [List.mem_singleton.mp h2] at hk2
      simp only [] at hk2
      rw [hkey] at hk2
      exact absurd hk2 (by simp)
  · intro pr hpr k hk
    rcases List.mem_append.mp hpr with h2 | h2
    · exact hcov pr h2 k hk
    · rw [List.mem_singleton.mp h2] at hk
      simp only [] at hk
      rw [hkey] at hk
      exact absurd hk (by simp)

/-- Recording a detection that resolved to a match identity preserves the
resolver loop invariant across the dict update. -/
theorem ResolverInv_updateBest (resolve : ℕ → Detection → Except String (List String))
    (seen : List (ℕ × Detection)) (acc : List (String × Product)) (i : ℕ)
    (det : Detection) (url : String) (hInv : ResolverInv resolve seen acc)
    (hkey : resolvedKey resolve i det = some url) :
    ResolverInv resolve (seen ++ [(i, det)])
      (updateBest acc url (mkProduct det url)) := by
  obtain ⟨hnd, hent, hcov⟩ := hInv
  by_cases hmem : url ∈ acc.map Prod.fst
  · rcases updateBest_mem_spec acc url (mkProduct det url) hnd hmem with
      ⟨l1, q, l2, heq, hl1, hl2, hupd⟩
    have hkeys : (l1 ++ (url,
        if q.confidence < (mkProduct det url).confidence then mkProduct det url
        else q) :: l2).map Prod.fst = acc.map Prod.fst := by
      rw [heq]
      simp
    rw [hupd]
    refine ⟨?_, ?_, ?_⟩
    · rw [hkeys]
      exact hnd
    · intro kp hkp
      have hnotl1 : ∀ kp2 ∈ l1, kp2.1 ≠ url := by
        intro kp2 h2 he
        exact hl1 (he ▸ List.mem_map_of_mem Prod.fst h2)
      have hnotl2 : ∀ kp2 ∈ l2, kp2.1 ≠ url := by
        intro kp2 h2 he
        exact hl2 (he ▸ List.mem_map_of_mem Prod.fst h2)
      have hold : ∀ kp2 ∈ acc, kp2.1 ≠ url → kp2.2.image_url = kp2.1 ∧
          (∃ pr ∈ seen ++ [(i, det)],
            resolvedKey resolve pr.1 pr.2 = some kp2.1 ∧
            pr.2.confidence = kp2.2.confidence) ∧
          (∀ pr ∈ seen ++ [(i, det)],
            resolvedKey resolve pr.1 pr.2 = some kp2.1 →
            pr.2.confidence ≤ kp2.2.confidence) := by
        intro kp2 h2 hne
        obtain ⟨hurl, ⟨pr, hpr, hk, hc⟩, hmax⟩ := hent kp2 h2
        refine ⟨hurl, ⟨pr, List.mem_append_left _ hpr, hk, hc⟩, ?_⟩
        intro pr2 hpr2 hk2
        rcases List.mem_append.mp hpr2 with h3 | h3
        · exact hmax pr2 h3 hk2
        · rw [List.mem_singleton.mp h3] at hk2
          simp only [] at hk2
          rw [hkey] at hk2
          exact absurd (Option.some_inj.mp hk2).symm hne
      rcases List.mem_append.mp hkp with hkp | hkp
      · exact hold kp (by rw [heq]; exact List.mem_append_left _ hkp) (hnotl1 kp hkp)
      · rcases List.mem_cons.mp hkp with hkp | hkp
        · subst hkp
          obtain ⟨hurlq, ⟨pr, hpr, hk, hc⟩, hmax⟩ := hent (url, q)
            (by rw [heq]; exact List.mem_append_right _ (List.mem_cons_self _ _))
          by_cases hc2 : q.confidence < (mkProduct det url).confidence
          · rw [if_pos hc2]
            refine ⟨rfl, ⟨(i, det),
              List.mem_append_right _ (List.mem_singleton_self _), hkey, rfl⟩, ?_⟩
            intro pr2 hpr2 hk2
            rcases List.mem_append.mp hpr2 with h3 | h3
            · exact (hmax pr2 h3 hk2).trans hc2.le
            · rw [List.mem_singleton.mp h3]
              exact le_rfl
          · rw [if_neg hc2]
            refine ⟨hurlq, ⟨pr, List.mem_append_left _ hpr, hk, hc⟩, ?_⟩
            intro pr2 hpr2 hk2
            rcases List.mem_append.mp hpr2 with h3 | h3
            · exact hmax pr2 h3 hk2
            · rw [List.mem_singleton.mp h3]
              exact not_lt.mp hc2
        · exact hold kp
            (by rw [heq]; exact List.mem_append_right _ (List.mem_cons_of_mem _ hkp))
            (hnotl2 kp hkp)
    · intro pr hpr k hk
      rw [hkeys]
      rcases List.mem_append.mp hpr with h2 | h2
      · exact hcov pr h2 k hk
      · rw [List.mem_singleton.mp h2] at hk
        simp only [] at hk
        rw [hkey] at hk
        rw [← Option.some_inj.mp hk]
        exact hmem
  · rw [updateBest_not_mem acc url _ hmem]
    refine ⟨?_, ?_, ?_⟩
    · rw [List.map_append]
      simp [List.nodup_append, hnd, hmem]
    · intro kp hkp
      rcases List.mem_append.mp hkp with hkp | hkp
      · have hne : kp.1 ≠ url := by
          intro he
          exact hmem (he ▸ List.mem_map_of_mem Prod.fst hkp)
        obtain ⟨hurl, ⟨pr, hpr, hk, hc⟩, hmax⟩ := hent kp hkp
        refine ⟨hurl, ⟨pr, List.mem_append_left _ hpr, hk, hc⟩, ?_⟩
        intro pr2 hpr2 hk2
        rcases List.mem_append.mp hpr2 with h3 | h3
        · exact hmax pr2 h3 hk2
        · rw [List.mem_singleton.mp h3] at hk2
          simp only [] at hk2
          rw [hkey] at hk2
          exact absurd (Option.some_inj.mp hk2).symm hne
      · rw [List.mem_singleton.mp hkp]
        refine ⟨rfl, ⟨(i, det),
          List.mem_append_right _ (List.mem_singleton_self _), hkey, rfl⟩, ?_⟩
        intro pr2 hpr2 hk2
        rcases List.mem_append.mp hpr2 with h3 | h3
        · exact absurd (hcov pr2 h3 url hk2) hmem
        · rw [List.mem_singleton.mp h3]
          exact le_rfl
    · intro pr hpr k hk
      rw [List.map_append]
      rcases List.mem_append.mp hpr with h2 | h2
      · exact List.mem_append_left _ (hcov pr h2 k hk)
      · rw [List.mem_singleton.mp h2] at hk
        simp only [] at hk
        rw [hkey] at hk
        rw [← Option.some_inj.mp hk]
        simp

/-- The resolver loop establishes its invariant over the indexed
detections it processes. -/
theorem resolveLoop_inv (resolve : ℕ → Detection → Except String (List String))
    (dets : List Detection) :
    ∀ (i : ℕ) (seen : List (ℕ × Detection)) (acc : List (String × Product)),
      ResolverInv resolve seen acc →
      ResolverInv resolve (seen ++ List.enumFrom i dets)
        (resolveLoop resolve i dets acc) := by
  induction dets with
  | nil =>
    intro i seen acc h
    simpa using h
  | cons det rest ih =>
    intro i seen acc h
    rw [resolveLoop]
    have henum : List.enumFrom i (det :: rest) =
        (i, det) :: List.enumFrom (i + 1) rest := rfl
    rw [henum]
    cases hres : resolve i det with
    | error e =>
      simp only []
      have h2 := ResolverInv_extend_none resolve seen acc i det h
        (by unfold resolvedKey; rw [hres])
      have h3 := ih (i + 1) (seen ++ [(i, det)]) acc h2
      simpa [List.append_assoc] using h3
    | ok urls =>
      cases urls with
      | nil =>
        simp only []
        have h2 := ResolverInv_extend_none resolve seen acc i det h
          (by unfold resolvedKey; rw [hres])
        have h3 := ih (i + 1) (seen ++ [(i, det)]) acc h2
        simpa [List.append_assoc] using h3
      | cons url us =>
        simp only []
        have h2 := ResolverInv_updateBest resolve seen acc i det url h
          (by unfold resolvedKey; rw [hres])
        have h3 := ih (i + 1) (seen ++ [(i, det)])
          (updateBest acc url (mkProduct det url)) h2
        simpa [List.append_assoc] using h3

/-- Descending insertion permutes to consing. -/
theorem insertByConfidence_perm (p : Product) (l : List Product) :
    List.Perm (insertByConfidence p l) (p :: l) := by
  induction l with
  | nil => exact List.Perm.refl _
  | cons q rest ih =>
    rw [insertByConfidence]
    by_cases h : q.confidence < p.confidence
    · rw [if_pos h]
    · rw [if_neg h]
      exact (ih.cons q).trans (List.Perm.swap p q rest)

/-- The confidence sort permutes its input. -/
theorem sortByConfidence_perm (l : List Product) :
    List.Perm (sortByConfidence l) l := by
  induction l with
  | nil => exact List.Perm.refl _
  | cons p rest ih =>
    exact (insertByConfidence_perm p (sortByConfidence rest)).trans (ih.cons p)

/-- Descending insertion preserves descending order. -/
theorem insertByConfidence_pairwise (p : Product) (l : List Product)
    (h : List.Pairwise (fun a b => b.confidence ≤ a.confidence) l) :
    List.Pairwise (fun a b => b.confidence ≤ a.confidence)
      (insertByConfidence p l) := by
  induction l with
  | nil => simp [insertByConfidence]
  | cons q rest ih =>
    rcases List.pairwise_cons.mp h with ⟨hq, hrest⟩
    rw [insertByConfidence]
    by_cases hlt : q.confidence < p.confidence
    · rw [if_pos hlt]
      refine List.pairwise_cons.mpr ⟨?_, h⟩
      intro x hx
      rcases List.mem_cons.mp hx with h2 | h2
      · rw [h2]; exact hlt.le
      · exact (hq x h2).trans hlt.le
    · rw [if_neg hlt]
      refine List.pairwise_cons.mpr ⟨?_, ih hrest⟩
      intro x hx
      rcases List.mem_cons.mp ((insertByConfidence_perm p rest).mem_iff.mp hx) with
        h2 | h2
      · rw [h2]; exact not_lt.mp hlt
      · exact hq x h2

/-- The confidence sort yields a descending sequence. -/
theorem sortByConfidence_pairwise (l : List Product) :
    List.Pairwise (fun a b => b.confidence ≤ a.confidence) (sortByConfidence l) := by
  induction l with
  | nil => simp [sortByConfidence]
  | cons p rest ih => exact insertByConfidence_pairwise p (sortByConfidence rest) ih

/-- C2: `_find_similar_products` returns at most one product per distinct
matched image identity; a product's stored confidence is attained by one
of the detections resolving to its identity and dominates them all (the
dict entry is replaced only on strictly greater confidence); and the
returned sequence is sorted by descending confidence. -/
theorem resolver_dedup_max_sorted (resolve : ℕ → Detection → Except String (List String))
    (dets : List Detection) :
    List.Pairwise (fun a b => a.image_url ≠ b.image_url)
      (findSimilarProducts resolve dets) ∧
    List.Pairwise (fun a b => b.confidence ≤ a.confidence)
      (findSimilarProducts resolve dets) ∧
    ∀ p ∈ findSimilarProducts resolve dets,
      (∃ pr ∈ dets.enum, resolvedKey resolve pr.1 pr.2 = some p.image_url ∧
        pr.2.confidence = p.confidence) ∧
      (∀ pr ∈ dets.enum, resolvedKey resolve pr.1 pr.2 = some p.image_url →
        pr.2.confidence ≤ p.confidence) := by
  have hInv0 : ResolverInv resolve [] [] := ⟨by simp, by simp, by simp⟩
  have hInv : ResolverInv resolve dets.enum (resolveLoop resolve 0 dets []) :=
    resolveLoop_inv resolve dets 0 [] [] hInv0
  obtain ⟨hnd, hent, -⟩ := hInv
  have hperm : List.Perm (findSimilarProducts resolve dets)
      ((resolveLoop resolve 0 dets []).map Prod.snd) :=
    sortByConfidence_perm _
  refine ⟨?_, sortByConfidence_pairwise _, ?_⟩
  · have hpacc : List.Pairwise (fun kp kq : String × Product => kp.1 ≠ kq.1)
        (resolveLoop resolve 0 dets []) := List.pairwise_map.mp hnd
    have hpacc2 : List.Pairwise
        (fun kp kq : String × Product => kp.2.image_url ≠ kq.2.image_url)
        (resolveLoop resolve 0 dets []) := by
      refine hpacc.imp_of_mem ?_
      intro kp kq hkp hkq hne
      rw [(hent kp hkp).1, (hent kq hkq).1]
      exact hne
    have hmapped : List.Pairwise (fun a b : Product => a.image_url ≠ b.image_url)
        ((resolveLoop resolve 0 dets []).map Prod.snd) :=
      List.pairwise_map.mpr hpacc2
    exact (hperm.pairwise_iff (fun {_ _} h => Ne.symm h)).mpr hmapped
  · intro p hp
    rcases List.mem_map.mp (hperm.mem_iff.mp hp) with ⟨kp, hkp, hsnd⟩
    obtain ⟨hurl, ⟨pr, hpr, hk, hc⟩, hmax⟩ := hent kp hkp
    have hkey : kp.1 = p.image_url := by rw [← hsnd, hurl]
    constructor
    · exact ⟨pr, hpr, by rw [← hkey]; exact hk, by rw [← hsnd]; exact hc⟩
    · intro pr2 hpr2 hk2
      rw [← hsnd]
      exact hmax pr2 hpr2 (by rw [hkey]; exact hk2)

/-- C2 witness: one concrete detection resolving to one identity yields
the product of that detection, attained among the resolved detections. -/
theorem resolver_dedup_max_sorted_witness :
    ∃ pr ∈ ([sampleDetection] : List Detection).enum,
      resolvedKey (fun _ _ => Except.ok ["img1.jpg"]) pr.1 pr.2 =
        some (mkProduct sampleDetection "img1.jpg").image_url ∧
      pr.2.confidence = (mkProduct sampleDetection "img1.jpg").confidence := by
  have h := (resolver_dedup_max_sorted (fun _ _ => Except.ok ["img1.jpg"])
    [sampleDetection]).2.2
  exact (h (mkProduct sampleDetection "img1.jpg") (List.mem_singleton_self _)).1

/-- C10 witness: a concrete one-interval run stores one non-empty product
list, and the invariant applies to that entry. -/
theorem results_map_entries_nonempty_witness :
    [mkProduct sampleDetection "img1.jpg"] ≠ ([] : List Product) := by
  have hsel : selectBestFrameInRange (fun n => if n = 0 then some () else none)
      (fun _ => (true, 1)) (((0 : ℕ) : ℤ)) 1 0 = some ((), ((0 : ℕ) : ℤ) + 0, 1) := by
    norm_num [selectBestFrameInRange, probeOffsets, probeOffsets.offsetsFrom,
      selectLoop, bestQualityOf, pyInt]
  have hdet : detectObjectsInFrame sampleClothingDetector failingJewelryDetector
      (Image.frame 10 10) none = [sampleDetection] := by
    simp [detectObjectsInFrame, detectionTarget, keptDetections,
      ClothingDetector.detect_objects, JewelryDetector.detect_objects,
      RawDetections.empty, sampleClothingDetector, failingJewelryDetector,
      sampleDetection]
    norm_num
  have hpi : processInterval (fun n => if n = 0 then some () else none)
      (fun _ => (true, 1)) 1 0 (fun _ => Image.frame 10 10)
      ⟨false, 0.5, 0.05⟩ (fun _ => Except.ok [])
      sampleClothingDetector failingJewelryDetector
      (fun _ _ _ => Except.ok ["img1.jpg"]) [] 0 =
      [(((((0 : ℕ) : ℤ) + 0 : ℤ) : ℚ) / 1,
        [mkProduct sampleDetection "img1.jpg"])] := by
    have hperson : isPersonPresent ⟨false, 0.5, 0.05⟩ (Image.frame 10 10)
        (fun _ => Except.ok []) = true := rfl
    have hbox : processInterval.getPrimaryPersonBox ⟨false, 0.5, 0.05⟩
        (Image.frame 10 10) (fun _ => Except.ok []) = none := rfl
    have hprodeq : findSimilarProducts
        ((fun _ _ _ => Except.ok ["img1.jpg"] :
          ℚ → ℕ → Detection → Except String (List String))
          ((((((0 : ℕ) : ℤ) + 0 : ℤ) : ℚ)) / 1)) [sampleDetection] =
        [mkProduct sampleDetection "img1.jpg"] := rfl
    unfold processInterval
    rw [hsel]
    simp only [hperson, Bool.not_true, Bool.false_eq_true, if_false, hbox, hdet,
      hprodeq]
    rfl
  have hext : extractAndProcessFrames (fun n => if n = 0 then some () else none)
      (fun _ => (true, 1)) 1 1 1 0 (fun _ => Image.frame 10 10)
      ⟨false, 0.5, 0.05⟩ (fun _ => Except.ok [])
      sampleClothingDetector failingJewelryDetector
      (fun _ _ _ => Except.ok ["img1.jpg"]) =
      [(((((0 : ℕ) : ℤ) + 0 : ℤ) : ℚ) / 1,
        [mkProduct sampleDetection "img1.jpg"])] := by
    rw [extractAndProcessFrames]
    have hidx : intervalIndices 1 1 = [0] := by
      norm_num [intervalIndices, List.range_succ]
    rw [hidx, List.foldl_cons, List.foldl_nil]
    exact hpi
  exact results_map_entries_nonempty (fun n => if n = 0 then some () else none)
    (fun _ => (true, 1)) 1 1 1 0 (fun _ => Image.frame 10 10)
    ⟨false, 0.5, 0.05⟩ (fun _ => Except.ok [])
    sampleClothingDetector failingJewelryDetector
    (fun _ _ _ => Except.ok ["img1.jpg"])
    (((((0 : ℕ) : ℤ) + 0 : ℤ) : ℚ) / 1, [mkProduct sampleDetection "img1.jpg"])
    (by rw [hext]; exact List.mem_singleton_self _)

end CommerceVideo
